import Mathlib

/-!
Verification of the `hot_run.py` supervisor script.

The script is embedded as a fueled interpreter over an external `World`
describing everything the operating system decides: the exit code of the
one-shot build, whether each child process launch succeeds, what each
poll of a child handle reports at each loop iteration, and when (if ever)
a SIGINT is delivered.  Running the interpreter yields the ordered list
of observable events the supervisor performs and its final outcome.
-/

namespace HotRun

/-- The fixed command line of the one-shot build, `subprocess.run(["cargo", "build"])`. -/
def buildCmd : List String := ["cargo", "build"]

/-- The fixed command line of the first child (the watcher), launched with `Popen`. -/
def watchCmd : List String := ["cargo", "watch", "-w", "game", "-x", "build -p game"]

/-- The fixed command line of the second child (the runner), launched with `Popen`. -/
def runnerCmd : List String := ["cargo", "run"]

/-- `def signal_handler(sig, frame): sys.exit(0)` — the installed interrupt
handler; its result is the exit code it makes the supervisor exit with. -/
def signal_handler (sig : Nat) (frame : Unit) : Int := 0

/-- Everything decided outside the script: the build command result, whether
each launch succeeds, the poll results per loop iteration and handle index,
and the loop iteration (if any) at whose start a SIGINT is delivered. -/
structure World where
  buildExit : Int
  launchOk : List String → Bool
  polls : Nat → Nat → Option Int
  sigintAt : Option Nat

/-- Observable events of a run of the script, in program order. -/
inductive Ev where
  | installHandler : Ev
  | build : Int → Ev
  | launch : Nat → List String → Ev
  | launchFail : List String → Ev
  | poll : Nat → Option Int → Ev
  | terminate : Nat → Ev
  | exitSup : Int → Ev
deriving DecidableEq

/-- Mutable state of the supervise loop: the `processes` list (handles by
launch index), the iteration counter, and the exit code once `sys.exit` ran. -/
structure SupState where
  processes : List Nat
  iter : Nat
  halted : Option Int
deriving DecidableEq

/-- The state right after the two `Popen` calls: `processes = [0, 1]`. -/
def initState : SupState :=
  { processes := [0, 1], iter := 0, halted := none }

/-- A loop state at iteration `k` with the startup process list. -/
def midState (k : Nat) : SupState :=
  { processes := [0, 1], iter := k, halted := none }

/-- `for p in processes: code = p.poll(); if code != None: ...` — scans the
handles in list order; at the first non-null poll it runs the inner
`for p in processes: p.terminate()` over the whole list `allProcs` and then
`sys.exit(code)`.  Returns the emitted events and the exit code, if any. -/
def scanPolls (w : World) (t : Nat) (allProcs : List Nat) :
    List Nat → List Ev × Option Int
  | [] => ([], none)
  | i :: rest =>
    match w.polls t i with
    | some c =>
        (Ev.poll i (some c) :: (allProcs.map Ev.terminate ++ [Ev.exitSup c]),
         some c)
    | none =>
        let r := scanPolls w t allProcs rest
        (Ev.poll i none :: r.1, r.2)

/-- One iteration of `while True:` — if a SIGINT is delivered at the start of
this iteration the installed handler exits the process with its code;
otherwise the body polls every handle in list order and either exits or
moves to the next iteration. -/
def superviseStep (w : World) (s : SupState) : SupState × List Ev :=
  match s.halted with
  | some _ => (s, [])
  | none =>
    if w.sigintAt = some s.iter then
      ({ s with halted := some (signal_handler 2 ()) },
       [Ev.exitSup (signal_handler 2 ())])
    else
      match scanPolls w s.iter s.processes s.processes with
      | (evs, some c) => ({ s with halted := some c }, evs)
      | (evs, none) => ({ s with iter := s.iter + 1 }, evs)

/-- Runs the supervise loop for at most `fuel` iterations, accumulating the
emitted events; the second component is the supervisor exit code, `none`
while it is still running when the fuel runs out. -/
def superviseRun (w : World) : SupState → Nat → List Ev × Option Int
  | s, 0 => ([], s.halted)
  | s, fuel + 1 =>
    match s.halted with
    | some c => ([], some c)
    | none =>
      let p := superviseStep w s
      let rest := superviseRun w p.1 fuel
      (p.2 ++ rest.1, rest.2)

/-- The loop state after `k` iterations of `superviseStep` from startup. -/
def stepN (w : World) : Nat → SupState
  | 0 => initState
  | k + 1 => (superviseStep w (stepN w k)).1

/-- Final outcome of the script: a `sys.exit` with a code, a crash from an
unhandled launch failure, or still running when the fuel ran out. -/
inductive Outcome where
  | exited : Int → Outcome
  | crashed : Outcome
  | running : Outcome
deriving DecidableEq

/-- The whole script, top to bottom: install the SIGINT handler (line 8),
run the build to completion discarding its result (line 10), launch the two
children (lines 12 to 15) crashing on a failed launch, then the supervise
loop (lines 17 to 23). -/
def hotRun (w : World) (fuel : Nat) : List Ev × Outcome :=
  let pre := [Ev.installHandler, Ev.build w.buildExit]
  if w.launchOk watchCmd then
    if w.launchOk runnerCmd then
      let r := superviseRun w initState fuel
      (pre ++ [Ev.launch 0 watchCmd, Ev.launch 1 runnerCmd] ++ r.1,
       match r.2 with
       | some c => Outcome.exited c
       | none => Outcome.running)
    else
      (pre ++ [Ev.launch 0 watchCmd, Ev.launchFail runnerCmd], Outcome.crashed)
  else
    (pre ++ [Ev.launchFail watchCmd], Outcome.crashed)

/-- Event classifiers used to state ordering properties of a trace. -/
def isBuild : Ev → Bool
  | Ev.build _ => true
  | _ => false

def isInstall : Ev → Bool
  | Ev.installHandler => true
  | _ => false

def isLaunch : Ev → Bool
  | Ev.launch _ _ => true
  | _ => false

def isPoll : Ev → Bool
  | Ev.poll _ _ => true
  | _ => false

/-- An event that can only be emitted by the supervise loop. -/
def isLoopEv : Ev → Bool
  | Ev.poll _ _ => true
  | Ev.terminate _ => true
  | Ev.exitSup _ => true
  | _ => false

/-- Index of the first event satisfying `p`, if any. -/
def idxOfEv (p : Ev → Bool) : List Ev → Option Nat
  | [] => none
  | e :: rest => if p e then some 0 else (idxOfEv p rest).map (· + 1)

/-- The startup order claimed by the spec sentence under check: first a build
event, then a launch event, then the handler installation, then the first
poll of the loop. -/
def claimedStartupOrder (evs : List Ev) : Bool :=
  match idxOfEv isBuild evs, idxOfEv isLaunch evs,
        idxOfEv isInstall evs, idxOfEv isPoll evs with
  | some b, some l, some h, some q => b < l && l < h && h < q
  | _, _, _, _ => false

/-- Erases the build exit code carried by a trace, for comparing runs that
differ only in the build result. -/
def scrubBuild : Ev → Ev
  | Ev.build _ => Ev.build 0
  | e => e

/-- A world where every poll immediately reports exit code 0. -/
def wAll0 : World where
  buildExit := 0
  launchOk := fun _ => true
  polls := fun _ _ => some 0
  sigintAt := none

/-- A world where the watcher (handle 0) exits with code 5 at the first poll
and the runner keeps running. -/
def wFirst5 : World where
  buildExit := 0
  launchOk := fun _ => true
  polls := fun t i => if t == 0 && i == 0 then some 5 else none
  sigintAt := none

/-- A world where the runner (handle 1) has exited with code 5 while the
watcher keeps running. -/
def wSecond5 : World where
  buildExit := 0
  launchOk := fun _ => true
  polls := fun _ i => if i == 1 then some 5 else none
  sigintAt := none

/-- A world where handle 0 reports exit code 3 and handle 1 reports 9. -/
def wBoth : World where
  buildExit := 0
  launchOk := fun _ => true
  polls := fun _ i => if i == 0 then some 3 else some 9
  sigintAt := none

/-- A world where no child ever exits and no signal arrives. -/
def wNever : World where
  buildExit := 0
  launchOk := fun _ => true
  polls := fun _ _ => none
  sigintAt := none

/-- A world where no child ever exits and SIGINT arrives at loop iteration 0. -/
def wSig : World where
  buildExit := 0
  launchOk := fun _ => true
  polls := fun _ _ => none
  sigintAt := some 0

/-- A world where every process launch fails. -/
def wNoLaunch : World where
  buildExit := 0
  launchOk := fun _ => false
  polls := fun _ _ => none
  sigintAt := none

/-! ### Unfolding lemmas for the supervise loop -/

lemma run_halted (w : World) (s : SupState) (fuel : Nat) (c : Int)
    (h : s.halted = some c) : superviseRun w s fuel = ([], some c) := by
  cases fuel <;> simp [superviseRun, h]

lemma run_sigint (w : World) (k fuel : Nat) (h : w.sigintAt = some k) :
    superviseRun w (midState k) (fuel + 1) = ([Ev.exitSup 0], some 0) := by
  simp [superviseRun, superviseStep, midState, h, signal_handler, run_halted]

lemma run_exit0 (w : World) (k fuel : Nat) (c : Int)
    (hs : w.sigintAt ≠ some k) (h0 : w.polls k 0 = some c) :
    superviseRun w (midState k) (fuel + 1) =
      ([Ev.poll 0 (some c), Ev.terminate 0, Ev.terminate 1, Ev.exitSup c],
       some c) := by
  simp [superviseRun, superviseStep, midState, scanPolls, hs, h0, run_halted]

lemma run_exit1 (w : World) (k fuel : Nat) (c : Int)
    (hs : w.sigintAt ≠ some k) (h0 : w.polls k 0 = none)
    (h1 : w.polls k 1 = some c) :
    superviseRun w (midState k) (fuel + 1) =
      ([Ev.poll 0 none, Ev.poll 1 (some c), Ev.terminate 0, Ev.terminate 1,
        Ev.exitSup c], some c) := by
  simp [superviseRun, superviseStep, midState, scanPolls, hs, h0, h1, run_halted]

lemma run_skip (w : World) (k fuel : Nat)
    (hs : w.sigintAt ≠ some k) (h0 : w.polls k 0 = none)
    (h1 : w.polls k 1 = none) :
    superviseRun w (midState k) (fuel + 1) =
      (Ev.poll 0 none :: Ev.poll 1 none ::
        (superviseRun w (midState (k + 1)) fuel).1,
       (superviseRun w (midState (k + 1)) fuel).2) := by
  simp [superviseRun, superviseStep, midState, scanPolls, hs, h0, h1]

/-! ### Behaviour of the loop over whole runs -/

lemma loop_exits (w : World) (hsig : w.sigintAt = none) (c : Int) :
    ∀ t k fuel, t < fuel →
      (∀ u, u < t → w.polls (k + u) 0 = none ∧ w.polls (k + u) 1 = none) →
      (w.polls (k + t) 0 = some c ∨
        (w.polls (k + t) 0 = none ∧ w.polls (k + t) 1 = some c)) →
      (superviseRun w (midState k) fuel).2 = some c := by
  intro t
  induction t with
  | zero =>
    intro k fuel hfuel _ hexit
    obtain ⟨f, rfl⟩ : ∃ f, fuel = f + 1 := ⟨fuel - 1, by omega⟩
    have hs : w.sigintAt ≠ some k := by simp [hsig]
    rcases hexit with h0 | ⟨h0, h1⟩
    · rw [run_exit0 w k f c hs (by simpa using h0)]
    · rw [run_exit1 w k f c hs (by simpa using h0) (by simpa using h1)]
  | succ t ih =>
    intro k fuel hfuel hbefore hexit
    obtain ⟨f, rfl⟩ : ∃ f, fuel = f + 1 := ⟨fuel - 1, by omega⟩
    have hs : w.sigintAt ≠ some k := by simp [hsig]
    have h0 := hbefore 0 (by omega)
    rw [run_skip w k f hs (by simpa using h0.1) (by simpa using h0.2)]
    apply ih (k + 1) f (by omega)
    · intro u hu
      have := hbefore (u + 1) (by omega)
      have harith : k + (u + 1) = k + 1 + u := by omega
      rw [harith] at this
      exact this
    · have harith : k + (t + 1) = k + 1 + t := by omega
      rw [harith] at hexit
      exact hexit

lemma loop_sigint (w : World) :
    ∀ t k fuel, t < fuel → w.sigintAt = some (k + t) →
      (∀ u, u < t → w.polls (k + u) 0 = none ∧ w.polls (k + u) 1 = none) →
      (superviseRun w (midState k) fuel).2 = some 0 := by
  intro t
  induction t with
  | zero =>
    intro k fuel hfuel hsig _
    obtain ⟨f, rfl⟩ : ∃ f, fuel = f + 1 := ⟨fuel - 1, by omega⟩
    rw [run_sigint w k f (by simpa using hsig)]
  | succ t ih =>
    intro k fuel hfuel hsig hbefore
    obtain ⟨f, rfl⟩ : ∃ f, fuel = f + 1 := ⟨fuel - 1, by omega⟩
    have hs : w.sigintAt ≠ some k := by
      rw [hsig]
      intro h
      have := Option.some.inj h
      omega
    have h0 := hbefore 0 (by omega)
    rw [run_skip w k f hs (by simpa using h0.1) (by simpa using h0.2)]
    apply ih (k + 1) f (by omega)
    · rw [hsig]
      congr 1
      omega
    · intro u hu
      have := hbefore (u + 1) (by omega)
      have harith : k + (u + 1) = k + 1 + u := by omega
      rw [harith] at this
      exact this

lemma loop_allnone (w : World) (hsig : w.sigintAt = none)
    (hp : ∀ t, w.polls t 0 = none ∧ w.polls t 1 = none) :
    ∀ fuel k, superviseRun w (midState k) fuel =
      ((List.range fuel).flatMap (fun _ => [Ev.poll 0 none, Ev.poll 1 none]),
       none) := by
  intro fuel
  induction fuel with
  | zero => intro k; simp [superviseRun, midState]
  | succ f ih =>
    intro k
    have hs : w.sigintAt ≠ some k := by simp [hsig]
    rw [run_skip w k f hs (hp k).1 (hp k).2]
    rw [ih (k + 1)]
    simp [List.range_succ_eq_map, List.flatMap_cons, List.flatMap_map]

lemma loop_exit_source (w : World) (hsig : w.sigintAt = none) :
    ∀ fuel k c, (superviseRun w (midState k) fuel).2 = some c →
      ∃ t, k ≤ t ∧ t < k + fuel ∧
        (w.polls t 0 = some c ∨
          (w.polls t 0 = none ∧ w.polls t 1 = some c)) := by
  intro fuel
  induction fuel with
  | zero => intro k c h; simp [superviseRun, midState] at h
  | succ f ih =>
    intro k c h
    have hs : w.sigintAt ≠ some k := by simp [hsig]
    cases h0 : w.polls k 0 with
    | some c0 =>
      rw [run_exit0 w k f c0 hs h0] at h
      have := Option.some.inj h
      exact ⟨k, le_refl k, by omega, Or.inl (by rw [h0, this])⟩
    | none =>
      cases h1 : w.polls k 1 with
      | some c1 =>
        rw [run_exit1 w k f c1 hs h0 h1] at h
        have := Option.some.inj h
        exact ⟨k, le_refl k, by omega, Or.inr ⟨h0, by rw [h1, this]⟩⟩
      | none =>
        rw [run_skip w k f hs h0 h1] at h
        obtain ⟨t, ht1, ht2, ht3⟩ := ih (k + 1) c h
        exact ⟨t, by omega, by omega, ht3⟩

lemma loop_exit_trace (w : World) (hsig : w.sigintAt = none) :
    ∀ fuel k c, (superviseRun w (midState k) fuel).2 = some c →
      ∃ pre, (superviseRun w (midState k) fuel).1 =
        pre ++ [Ev.terminate 0, Ev.terminate 1, Ev.exitSup c] := by
  intro fuel
  induction fuel with
  | zero => intro k c h; simp [superviseRun, midState] at h
  | succ f ih =>
    intro k c h
    have hs : w.sigintAt ≠ some k := by simp [hsig]
    cases h0 : w.polls k 0 with
    | some c0 =>
      rw [run_exit0 w k f c0 hs h0] at h ⊢
      have hc := Option.some.inj h
      exact ⟨[Ev.poll 0 (some c0)], by rw [hc]; simp⟩
    | none =>
      cases h1 : w.polls k 1 with
      | some c1 =>
        rw [run_exit1 w k f c1 hs h0 h1] at h ⊢
        have hc := Option.some.inj h
        exact ⟨[Ev.poll 0 none, Ev.poll 1 (some c1)], by rw [hc]; simp⟩
      | none =>
        rw [run_skip w k f hs h0 h1] at h ⊢
        obtain ⟨pre, hpre⟩ := ih (k + 1) c h
        exact ⟨Ev.poll 0 none :: Ev.poll 1 none :: pre, by rw [hpre]; simp⟩

lemma scanPolls_loopEvs (w : World) (t : Nat) (allProcs : List Nat) :
    ∀ l, ∀ e ∈ (scanPolls w t allProcs l).1, isLoopEv e = true := by
  intro l
  induction l with
  | nil => intro e he; simp [scanPolls] at he
  | cons i rest ih =>
    intro e he
    cases hp : w.polls t i with
    | some c =>
      rw [scanPolls, hp] at he
      simp at he
      rcases he with rfl | ⟨x, _, rfl⟩ | rfl <;> simp [isLoopEv]
    | none =>
      rw [scanPolls, hp] at he
      simp at he
      rcases he with rfl | he
      · simp [isLoopEv]
      · exact ih e he

lemma step_loopEvs (w : World) (s : SupState) :
    ∀ e ∈ (superviseStep w s).2, isLoopEv e = true := by
  intro e he
  unfold superviseStep at he
  cases hh : s.halted with
  | some c => rw [hh] at he; simp at he
  | none =>
    rw [hh] at he
    by_cases hs : w.sigintAt = some s.iter
    · rw [if_pos hs] at he
      simp at he
      rw [he]; simp [isLoopEv]
    · rw [if_neg hs] at he
      cases hscan : scanPolls w s.iter s.processes s.processes with
      | mk evs r =>
        rw [hscan] at he
        cases r with
        | some c =>
          simp at he
          exact scanPolls_loopEvs w s.iter s.processes s.processes e
            (by rw [hscan]; exact he)
        | none =>
          simp at he
          exact scanPolls_loopEvs w s.iter s.processes s.processes e
            (by rw [hscan]; exact he)

lemma run_loopEvs (w : World) :
    ∀ fuel s, ∀ e ∈ (superviseRun w s fuel).1, isLoopEv e = true := by
  intro fuel
  induction fuel with
  | zero => intro s e he; simp [superviseRun] at he
  | succ f ih =>
    intro s e he
    unfold superviseRun at he
    cases hh : s.halted with
    | some c => rw [hh] at he; simp at he
    | none =>
      rw [hh] at he
      simp at he
      rcases he with he | he
      · exact step_loopEvs w s e he
      · exact ih (superviseStep w s).1 e he

lemma step_processes (w : World) (s : SupState) :
    ((superviseStep w s).1).processes = s.processes := by
  unfold superviseStep
  cases hh : s.halted with
  | some c => simp
  | none =>
    by_cases hs : w.sigintAt = some s.iter
    · simp [hs]
    · rw [if_neg hs]
      cases hscan : scanPolls w s.iter s.processes s.processes with
      | mk evs r => cases r <;> simp

lemma scanPolls_congr (w1 w2 : World) (hp : w1.polls = w2.polls)
    (t : Nat) (allProcs : List Nat) :
    ∀ l, scanPolls w1 t allProcs l = scanPolls w2 t allProcs l := by
  intro l
  induction l with
  | nil => simp [scanPolls]
  | cons i rest ih => rw [scanPolls, scanPolls, hp, ih]

lemma step_congr (w1 w2 : World) (hp : w1.polls = w2.polls)
    (hs : w1.sigintAt = w2.sigintAt) (s : SupState) :
    superviseStep w1 s = superviseStep w2 s := by
  unfold superviseStep
  rw [hs, scanPolls_congr w1 w2 hp]

lemma run_congr (w1 w2 : World) (hp : w1.polls = w2.polls)
    (hs : w1.sigintAt = w2.sigintAt) :
    ∀ fuel s, superviseRun w1 s fuel = superviseRun w2 s fuel := by
  intro fuel
  induction fuel with
  | zero => intro s; simp [superviseRun]
  | succ f ih =>
    intro s
    unfold superviseRun
    rw [step_congr w1 w2 hp hs]
    cases s.halted <;> simp [ih]

lemma hotRun_launched (w : World) (fuel : Nat)
    (hw : w.launchOk watchCmd = true) (hr : w.launchOk runnerCmd = true) :
    hotRun w fuel =
      ([Ev.installHandler, Ev.build w.buildExit, Ev.launch 0 watchCmd,
        Ev.launch 1 runnerCmd] ++ (superviseRun w initState fuel).1,
       match (superviseRun w initState fuel).2 with
       | some c => Outcome.exited c
       | none => Outcome.running) := by
  simp [hotRun, hw, hr]

lemma initState_mid : initState = midState 0 := rfl

lemma hotRun_exit_trace (w : World) (fuel : Nat) (c : Int)
    (hw : w.launchOk watchCmd = true) (hr : w.launchOk runnerCmd = true)
    (hsig : w.sigintAt = none)
    (hex : (hotRun w fuel).2 = Outcome.exited c) :
    ∃ pre, (hotRun w fuel).1 =
      pre ++ [Ev.terminate 0, Ev.terminate 1, Ev.exitSup c] := by
  rw [hotRun_launched w fuel hw hr] at hex ⊢
  cases hr2 : (superviseRun w initState fuel).2 with
  | none => rw [hr2] at hex; simp at hex
  | some c2 =>
    rw [hr2] at hex
    simp at hex
    rw [hex] at hr2
    have hsome : (superviseRun w (midState 0) fuel).2 = some c := hr2
    obtain ⟨pre, hpre⟩ := loop_exit_trace w hsig fuel 0 c hsome
    have hpre2 : (superviseRun w initState fuel).1 =
        pre ++ [Ev.terminate 0, Ev.terminate 1, Ev.exitSup c] := hpre
    refine ⟨[Ev.installHandler, Ev.build w.buildExit, Ev.launch 0 watchCmd,
      Ev.launch 1 runnerCmd] ++ pre, ?_⟩
    rw [hpre2]
    simp

/-! ### Claim theorems -/

/-- C1: for every exit code N, if exactly one of the two launched children
has exited with code N while the other is still running when the supervise
loop polls, the supervisor exits with code N. -/
theorem first_child_exit_code_propagated (w : World) (N : Int) (t fuel : Nat)
    (hw : w.launchOk watchCmd = true) (hr : w.launchOk runnerCmd = true)
    (hsig : w.sigintAt = none) (hfuel : t < fuel)
    (hbefore : ∀ u, u < t → w.polls u 0 = none ∧ w.polls u 1 = none)
    (hexit : (w.polls t 0 = some N ∧ w.polls t 1 = none) ∨
      (w.polls t 0 = none ∧ w.polls t 1 = some N)) :
    (hotRun w fuel).2 = Outcome.exited N := by
  have hloop : (superviseRun w initState fuel).2 = some N := by
    show (superviseRun w (midState 0) fuel).2 = some N
    apply loop_exits w hsig N t 0 fuel hfuel
    · intro u hu; simpa using hbefore u hu
    · rcases hexit with ⟨h0, _⟩ | ⟨h0, h1⟩
      · exact Or.inl (by simpa using h0)
      · exact Or.inr ⟨by simpa using h0, by simpa using h1⟩
  rw [hotRun_launched w fuel hw hr]
  simp [hloop]

/-- Witness for C1 at a concrete world: the watcher exits with code 5 at the
first poll while the runner is still running, and the supervisor exits 5. -/
theorem first_child_exit_code_propagated_witness :
    (0 : Nat) < 1 ∧ (hotRun wFirst5 1).2 = Outcome.exited 5 :=
  ⟨by decide,
   first_child_exit_code_propagated wFirst5 5 0 1 rfl rfl rfl (by decide)
     (fun u hu => absurd hu (Nat.not_lt_zero u)) (Or.inl ⟨rfl, rfl⟩)⟩

/-- C9: if both children have already exited when the supervise loop polls,
the supervisor exits with the exit code of the first handle in list order
(the watch process), regardless of the code of the second. -/
theorem both_exited_first_in_list_wins (w : World) (a b : Int) (t fuel : Nat)
    (hw : w.launchOk watchCmd = true) (hr : w.launchOk runnerCmd = true)
    (hsig : w.sigintAt = none) (hfuel : t < fuel)
    (hbefore : ∀ u, u < t → w.polls u 0 = none ∧ w.polls u 1 = none)
    (h0 : w.polls t 0 = some a) (h1 : w.polls t 1 = some b) :
    (hotRun w fuel).2 = Outcome.exited a := by
  have hloop : (superviseRun w initState fuel).2 = some a := by
    show (superviseRun w (midState 0) fuel).2 = some a
    apply loop_exits w hsig a t 0 fuel hfuel
    · intro u hu; simpa using hbefore u hu
    · exact Or.inl (by simpa using h0)
  rw [hotRun_launched w fuel hw hr]
  simp [hloop]

/-- Witness for C9 at a concrete world: both children have exited, the first
handle with 3 and the second with 9; the supervisor exits 3. -/
theorem both_exited_first_in_list_wins_witness :
    (0 : Nat) < 1 ∧ (hotRun wBoth 1).2 = Outcome.exited 3 :=
  ⟨by decide,
   both_exited_first_in_list_wins wBoth 3 9 0 1 rfl rfl rfl (by decide)
     (fun u hu => absurd hu (Nat.not_lt_zero u)) rfl rfl⟩

/-- C4: on receipt of SIGINT at any loop iteration reached before either
child exits, the installed handler makes the supervisor exit with code 0. -/
theorem sigint_exits_zero (w : World) (t fuel : Nat)
    (hw : w.launchOk watchCmd = true) (hr : w.launchOk runnerCmd = true)
    (hsig : w.sigintAt = some t) (hfuel : t < fuel)
    (hbefore : ∀ u, u < t → w.polls u 0 = none ∧ w.polls u 1 = none) :
    (hotRun w fuel).2 = Outcome.exited 0 := by
  have hloop : (superviseRun w initState fuel).2 = some 0 := by
    show (superviseRun w (midState 0) fuel).2 = some 0
    apply loop_sigint w t 0 fuel hfuel (by simpa using hsig)
    intro u hu; simpa using hbefore u hu
  rw [hotRun_launched w fuel hw hr]
  simp [hloop]

/-- Witness for C4 at a concrete world: no child ever exits, SIGINT arrives
at iteration 0, and the supervisor exits 0. -/
theorem sigint_exits_zero_witness :
    wSig.sigintAt = some 0 ∧ (hotRun wSig 1).2 = Outcome.exited 0 :=
  ⟨rfl,
   sigint_exits_zero wSig 0 1 rfl rfl rfl (by decide)
     (fun u hu => absurd hu (Nat.not_lt_zero u))⟩

/-- C8: at all times after startup the process list contains exactly the two
handles launched at startup; no supervise loop step adds, removes, or
replaces an element. -/
theorem process_list_never_changes (w : World) (k : Nat) :
    (stepN w k).processes = [0, 1] := by
  induction k with
  | zero => rfl
  | succ n ih => rw [stepN, step_processes, ih]

/-- C2 counterexample: the claimed startup order (build, then launch, then
install the interrupt handler, then the polling loop) is false on a concrete
run, because the script installs the handler on line 8, before the build on
line 10. -/
theorem claimed_startup_order_refuted :
    claimedStartupOrder (hotRun wAll0 1).1 = false := by decide

/-- C2 amended: the supervisor performs its startup actions in the order
install interrupt handler, run the one-shot build to completion, launch the
two children, enter the polling loop (whose events are all loop events). -/
theorem startup_order_actual (w : World) (fuel : Nat)
    (hw : w.launchOk watchCmd = true) (hr : w.launchOk runnerCmd = true) :
    ∃ loopEvs, (hotRun w fuel).1 =
      Ev.installHandler :: Ev.build w.buildExit :: Ev.launch 0 watchCmd ::
        Ev.launch 1 runnerCmd :: loopEvs ∧
      ∀ e ∈ loopEvs, isLoopEv e = true := by
  refine ⟨(superviseRun w initState fuel).1, ?_, run_loopEvs w fuel initState⟩
  rw [hotRun_launched w fuel hw hr]
  rfl

/-- Witness for the amended C2 at a concrete world. -/
theorem startup_order_actual_witness :
    ∃ loopEvs, (hotRun wAll0 1).1 =
      Ev.installHandler :: Ev.build wAll0.buildExit :: Ev.launch 0 watchCmd ::
        Ev.launch 1 runnerCmd :: loopEvs ∧
      ∀ e ∈ loopEvs, isLoopEv e = true :=
  startup_order_actual wAll0 1 rfl rfl

/-- C3: whenever the supervise loop observes that some child has exited, both
handles (in particular the other, still running child) receive a termination
request before the supervisor exits: the trace ends with the two termination
requests followed by the supervisor exit. -/
theorem sibling_terminated_before_exit (w : World) (fuel : Nat) (c : Int)
    (hw : w.launchOk watchCmd = true) (hr : w.launchOk runnerCmd = true)
    (hsig : w.sigintAt = none)
    (hex : (hotRun w fuel).2 = Outcome.exited c) :
    ∃ pre, (hotRun w fuel).1 =
      pre ++ [Ev.terminate 0, Ev.terminate 1, Ev.exitSup c] :=
  hotRun_exit_trace w fuel c hw hr hsig hex

/-- Witness for C3 at a concrete world: the watcher exits with code 5 and the
trace ends with both termination requests followed by the exit. -/
theorem sibling_terminated_before_exit_witness :
    (hotRun wFirst5 1).2 = Outcome.exited 5 ∧
    ∃ pre, (hotRun wFirst5 1).1 =
      pre ++ [Ev.terminate 0, Ev.terminate 1, Ev.exitSup 5] :=
  ⟨by decide,
   sibling_terminated_before_exit wFirst5 1 5 rfl rfl rfl (by decide)⟩

/-- C10: when shutdown is triggered by a child exit, the termination request
is sent to every handle in the process list, including the already-exited
child whose exit triggered the shutdown. -/
theorem terminate_sent_to_every_handle (w : World) (fuel : Nat) (c : Int)
    (hw : w.launchOk watchCmd = true) (hr : w.launchOk runnerCmd = true)
    (hsig : w.sigintAt = none)
    (hex : (hotRun w fuel).2 = Outcome.exited c) :
    ∀ i ∈ initState.processes, Ev.terminate i ∈ (hotRun w fuel).1 := by
  intro i hi
  have hmem : i = 0 ∨ i = 1 := by simpa [initState] using hi
  obtain ⟨pre, hpre⟩ := hotRun_exit_trace w fuel c hw hr hsig hex
  rw [hpre]
  rcases hmem with rfl | rfl <;> simp

/-- Witness for C10 at a concrete world: the runner (handle 1) is the child
that exited, and the termination request reaches every handle, handle 1
included. -/
theorem terminate_sent_to_every_handle_witness :
    (hotRun wSecond5 1).2 = Outcome.exited 5 ∧
    ∀ i ∈ initState.processes, Ev.terminate i ∈ (hotRun wSecond5 1).1 :=
  ⟨by decide,
   terminate_sent_to_every_handle wSecond5 1 5 rfl rfl rfl (by decide)⟩

/-- C5: the exit code of the initial build never affects the supervisor: for
any two build results the outcome is identical, the traces agree once the
build exit code is erased, and (when the launches succeed) the supervisor
still launches both children. -/
theorem build_exit_noninterference (w : World) (b1 b2 : Int) (fuel : Nat) :
    (hotRun { w with buildExit := b1 } fuel).2 =
      (hotRun { w with buildExit := b2 } fuel).2 ∧
    (hotRun { w with buildExit := b1 } fuel).1.map scrubBuild =
      (hotRun { w with buildExit := b2 } fuel).1.map scrubBuild ∧
    (w.launchOk watchCmd = true → w.launchOk runnerCmd = true →
      Ev.launch 0 watchCmd ∈ (hotRun { w with buildExit := b1 } fuel).1 ∧
      Ev.launch 1 runnerCmd ∈ (hotRun { w with buildExit := b1 } fuel).1) := by
  have hrun : superviseRun { w with buildExit := b1 } initState fuel =
      superviseRun { w with buildExit := b2 } initState fuel :=
    run_congr { w with buildExit := b1 } { w with buildExit := b2 }
      rfl rfl fuel initState
  by_cases h1 : w.launchOk watchCmd
  · by_cases h2 : w.launchOk runnerCmd
    · refine ⟨?_, ?_, ?_⟩
      · simp [hotRun, h1, h2, hrun]
      · simp [hotRun, h1, h2, hrun, scrubBuild]
      · intro _ _
        constructor <;> simp [hotRun, h1, h2]
    · refine ⟨?_, ?_, ?_⟩
      · simp [hotRun, h1, h2]
      · simp [hotRun, h1, h2, scrubBuild]
      · intro _ hc; exact absurd hc h2
  · refine ⟨?_, ?_, ?_⟩
    · simp [hotRun, h1]
    · simp [hotRun, h1, scrubBuild]
    · intro hc; exact absurd hc h1

/-- Witness for C5 at a concrete world and two distinct build exit codes. -/
theorem build_exit_noninterference_witness :
    (hotRun { wAll0 with buildExit := 1 } 1).2 =
      (hotRun { wAll0 with buildExit := 2 } 1).2 ∧
    (hotRun { wAll0 with buildExit := 1 } 1).1.map scrubBuild =
      (hotRun { wAll0 with buildExit := 2 } 1).1.map scrubBuild ∧
    (wAll0.launchOk watchCmd = true → wAll0.launchOk runnerCmd = true →
      Ev.launch 0 watchCmd ∈ (hotRun { wAll0 with buildExit := 1 } 1).1 ∧
      Ev.launch 1 runnerCmd ∈ (hotRun { wAll0 with buildExit := 1 } 1).1) :=
  build_exit_noninterference wAll0 1 2 1

lemma pollTrace_length (n : Nat) :
    ((List.range n).flatMap
      (fun _ => [Ev.poll 0 none, Ev.poll 1 none])).length = 2 * n := by
  induction n with
  | zero => simp
  | succ m ih =>
    rw [List.range_succ, List.flatMap_append]
    simp [ih]
    omega

/-- C6: with no interrupt arriving, the supervise loop exits the supervisor
exactly when some poll reports a non-null exit code: while every poll reports
null the loop keeps iterating (two polls per iteration, no other events) and
the supervisor never exits on its own; an exit means some poll reported its
code; and conversely a non-null poll report at any reached iteration forces
the loop to exit the supervisor. -/
theorem busy_poll_exit_iff (w : World) (fuel : Nat)
    (hw : w.launchOk watchCmd = true) (hr : w.launchOk runnerCmd = true)
    (hsig : w.sigintAt = none) :
    ((∀ t i, i < 2 → w.polls t i = none) →
      (hotRun w fuel).2 = Outcome.running ∧
      (hotRun w fuel).1.length = 4 + 2 * fuel) ∧
    (∀ c : Int, (hotRun w fuel).2 = Outcome.exited c →
      ∃ t, t < fuel ∧ (w.polls t 0 = some c ∨
        (w.polls t 0 = none ∧ w.polls t 1 = some c))) ∧
    (∀ t, t < fuel →
      (∀ u, u < t → w.polls u 0 = none ∧ w.polls u 1 = none) →
      (w.polls t 0 ≠ none ∨ w.polls t 1 ≠ none) →
      ∃ c : Int, (hotRun w fuel).2 = Outcome.exited c) := by
  refine ⟨?_, ?_, ?_⟩
  · intro hp
    have hall : ∀ t, w.polls t 0 = none ∧ w.polls t 1 = none :=
      fun t => ⟨hp t 0 (by omega), hp t 1 (by omega)⟩
    have hnone := loop_allnone w hsig hall fuel 0
    have hnone2 : superviseRun w initState fuel =
        ((List.range fuel).flatMap (fun _ => [Ev.poll 0 none, Ev.poll 1 none]),
         none) := hnone
    rw [hotRun_launched w fuel hw hr, hnone2]
    constructor
    · simp
    · show ([Ev.installHandler, Ev.build w.buildExit, Ev.launch 0 watchCmd,
        Ev.launch 1 runnerCmd] ++ (List.range fuel).flatMap
          (fun _ => [Ev.poll 0 none, Ev.poll 1 none])).length = 4 + 2 * fuel
      rw [List.length_append, pollTrace_length]
      simp
  · intro c hex
    rw [hotRun_launched w fuel hw hr] at hex
    cases hr2 : (superviseRun w initState fuel).2 with
    | none => rw [hr2] at hex; simp at hex
    | some c2 =>
      rw [hr2] at hex
      simp at hex
      rw [hex] at hr2
      have hsome : (superviseRun w (midState 0) fuel).2 = some c := hr2
      obtain ⟨t, ht1, ht2, ht3⟩ := loop_exit_source w hsig fuel 0 c hsome
      exact ⟨t, by omega, ht3⟩
  · intro t ht hbefore hnn
    have hexit : ∃ c : Int, w.polls t 0 = some c ∨
        (w.polls t 0 = none ∧ w.polls t 1 = some c) := by
      cases h0 : w.polls t 0 with
      | some c0 => exact ⟨c0, Or.inl rfl⟩
      | none =>
        cases h1 : w.polls t 1 with
        | some c1 => exact ⟨c1, Or.inr ⟨rfl, rfl⟩⟩
        | none => rcases hnn with hnn | hnn <;> exact absurd (by assumption) hnn
    obtain ⟨c, hc⟩ := hexit
    refine ⟨c, ?_⟩
    have hloop : (superviseRun w initState fuel).2 = some c := by
      show (superviseRun w (midState 0) fuel).2 = some c
      apply loop_exits w hsig c t 0 fuel ht
      · intro u hu; simpa using hbefore u hu
      · simpa using hc
    rw [hotRun_launched w fuel hw hr]
    simp [hloop]

/-- Witness for C6 at a concrete world where no child ever exits: after two
loop iterations the supervisor is still running and its trace holds the
startup events plus two polls per iteration. -/
theorem busy_poll_exit_iff_witness :
    ((∀ t i, i < 2 → wNever.polls t i = none) →
      (hotRun wNever 2).2 = Outcome.running ∧
      (hotRun wNever 2).1.length = 4 + 2 * 2) ∧
    (∀ c : Int, (hotRun wNever 2).2 = Outcome.exited c →
      ∃ t, t < 2 ∧ (wNever.polls t 0 = some c ∨
        (wNever.polls t 0 = none ∧ wNever.polls t 1 = some c))) ∧
    (∀ t, t < 2 →
      (∀ u, u < t → wNever.polls u 0 = none ∧ wNever.polls u 1 = none) →
      (wNever.polls t 0 ≠ none ∨ wNever.polls t 1 ≠ none) →
      ∃ c : Int, (hotRun wNever 2).2 = Outcome.exited c) :=
  busy_poll_exit_iff wNever 2 rfl rfl rfl

/-- C7: if launching either child fails, the supervisor crashes at once: the
trace stops at the single failed launch attempt and no retry occurs. -/
theorem launch_failure_crashes (w : World) (fuel : Nat) :
    (w.launchOk watchCmd = false →
      hotRun w fuel = ([Ev.installHandler, Ev.build w.buildExit,
        Ev.launchFail watchCmd], Outcome.crashed)) ∧
    (w.launchOk watchCmd = true → w.launchOk runnerCmd = false →
      hotRun w fuel = ([Ev.installHandler, Ev.build w.buildExit,
        Ev.launch 0 watchCmd, Ev.launchFail runnerCmd], Outcome.crashed)) := by
  constructor
  · intro h
    simp [hotRun, h]
  · intro h1 h2
    simp [hotRun, h1, h2]

/-- Witness for C7 at a concrete world where every launch fails: the
supervisor crashes right after the first failed launch. -/
theorem launch_failure_crashes_witness :
    wNoLaunch.launchOk watchCmd = false ∧
    hotRun wNoLaunch 1 = ([Ev.installHandler, Ev.build wNoLaunch.buildExit,
      Ev.launchFail watchCmd], Outcome.crashed) :=
  ⟨rfl, (launch_failure_crashes wNoLaunch 1).1 rfl⟩

end HotRun
